import Mathlib

/-!
Verification of the Markdown-to-document converter in `streamlit.py`
(`generate_docx` and its helper `create_table_from_markdown`).

Lines are modelled as `List Char` (Python `str`); the produced Word
document is modelled as the ordered list of blocks added to it
(`doc.add_heading`, `doc.add_paragraph`, `doc.add_table`).  The calls
into the external `python-docx` library build pure data here; the byte
serialisation (`doc.save`) is out of scope.
-/

set_option autoImplicit false

namespace PdfToWord

/-- A single line of input, Python `str`. -/
abbrev Line := List Char

/-- The ASCII whitespace characters removed by Python's `str.strip()`.
(Python also strips the non-ASCII Unicode spaces, U+0085 and U+00A0; a
strict subset only makes the modelled trimming weaker, never stronger.) -/
def pyWhitespace (c : Char) : Bool :=
  c = ' ' || c = '\t' || c = '\n' || c = '\r' || c = '\x0b' || c = '\x0c'
    || c = '\x1c' || c = '\x1d' || c = '\x1e' || c = '\x1f'

/-- Python `s.lstrip()`. -/
def lstrip (s : Line) : Line := s.dropWhile pyWhitespace

/-- Python `s.rstrip()`: drop the longest whitespace suffix.  A
character is kept exactly when something non-whitespace remains at or
after it. -/
def rstrip : Line → Line
  | [] => []
  | c :: s =>
      match rstrip s with
      | [] => if pyWhitespace c then [] else [c]
      | r => c :: r

/-- Python `s.strip()`. -/
def strip (s : Line) : Line := rstrip (lstrip s)

/-- Python `s.startswith(p)`. -/
def startswith (s p : Line) : Bool := p.isPrefixOf s

/-- Python `s.endswith(p)`. -/
def endswith (s p : Line) : Bool := p.isSuffixOf s

/-- One block added to the Word document: `add_heading` with a level,
`add_paragraph` with style `List Bullet`, plain `add_paragraph`, or
`add_table` (a grid of cell texts, row-major). -/
inductive Block where
  | heading (level : Nat) (text : Line)
  | bullet (text : Line)
  | paragraph (text : Line)
  | table (rows : List (List Line))
  deriving DecidableEq, Repr

/-- The block type the if/elif chain of `generate_docx` assigns to one
line (the spec's Line Classifier).  `tableRowT` carries the stripped
line, the others carry the text the corresponding `doc.add_*` call
receives. -/
inductive BlockType where
  | headingT (level : Nat) (text : Line)
  | bulletT (text : Line)
  | tableRowT (stripped : Line)
  | paragraphT (text : Line)
  | blankT
  deriving DecidableEq, Repr

/-- Line 88: `stripped.startswith('|') and stripped.endswith('|')`. -/
def isTableLine (line : Line) : Bool :=
  startswith (strip line) ['|'] && endswith (strip line) ['|']

/-- The classification of one line, read off the branch structure of the
loop body of `generate_docx` (lines 84-103): the table-row test is on
`line.strip()`, the heading and bullet tests on the raw `line`, and a
non-empty stripped residue is a paragraph carrying the raw line.  All
three heading branches pass `line[2:]` to `add_heading` (lines 97-99),
so only the level-1 marker is removed in full. -/
def classify (line : Line) : BlockType :=
  if isTableLine line then .tableRowT (strip line)
  else if startswith line ('#' :: [' ']) then .headingT 1 (line.drop 2)
  else if startswith line ('#' :: '#' :: [' ']) then .headingT 2 (line.drop 2)
  else if startswith line ('#' :: '#' :: '#' :: [' ']) then .headingT 3 (line.drop 2)
  else if startswith line ('*' :: [' ']) || startswith line ('-' :: [' ']) then
    .bulletT (line.drop 2)
  else if strip line ≠ [] then .paragraphT line
  else .blankT

/-- The blocks the non-table branch of `generate_docx` emits for one
classified line (`Blank` and `TableRow` emit nothing there). -/
def blockOf : BlockType → List Block
  | .headingT level text => [.heading level text]
  | .bulletT text => [.bullet text]
  | .paragraphT text => [.paragraph text]
  | .tableRowT _ => []
  | .blankT => []

/-- The Markdown header-separator marker `---` filtered out by
`create_table_from_markdown` (line 50: `'---' not in row`). -/
def sepDashes : Line := ['-', '-', '-']

/-- Python `'---' in row`: does `---` occur as a contiguous substring,
i.e. as a prefix of some suffix of `row`? -/
def hasSep : Line → Bool
  | [] => false
  | c :: rest => startswith (c :: rest) sepDashes || hasSep rest

/-- Line 50: `rows = [row for row in table_lines if '---' not in row]`. -/
def filteredRows (table_lines : List Line) : List Line :=
  table_lines.filter (fun row => !(hasSep row))

/-- Lines 57 and 66: `[c.strip() for c in row.split('|') if c.strip() != '']`. -/
def parseCells (row : Line) : List Line :=
  ((row.splitOn '|').map strip).filter (fun c => c ≠ [])

/-- One row of the Word table of `numCols` columns: cell `j` receives
`cells[j]` when `j < cells.length` (lines 69-71, guarded by
`j < num_cols`), and keeps its default empty text otherwise. -/
def padTruncate (numCols : Nat) (cells : List Line) : List Line :=
  cells.take numCols ++ List.replicate (numCols - cells.length) []

/-- The `try` body of `create_table_from_markdown` (lines 49-71): filter
out separator rows, stop if nothing is left, fix `num_cols` from the
first remaining row, and fill a `len(rows) × num_cols` table. -/
def create_table_blocks (table_lines : List Line) : List Block :=
  match filteredRows table_lines with
  | [] => []
  | r0 :: rest =>
      let num_cols := (parseCells r0).length
      [Block.table ((r0 :: rest).map (fun row => padTruncate num_cols (parseCells row)))]

/-- The `try`/`except` structure of `create_table_from_markdown`: run a
fallible body; on any exception emit each buffered line as its own
paragraph (lines 72-75).  The body is a parameter because in this pure
model the concrete body `create_table_blocks` is total — an exception
could only originate in the external `python-docx` calls. -/
def tableWithFallback (body : List Line → Except Unit (List Block))
    (table_lines : List Line) : List Block :=
  match body table_lines with
  | .ok blocks => blocks
  | .error _ => table_lines.map (fun line => Block.paragraph line)

/-- `create_table_from_markdown` as called by `generate_docx`, with the
concrete (non-failing) body. -/
def create_table_from_markdown (table_lines : List Line) : List Block :=
  tableWithFallback (fun ls => .ok (create_table_blocks ls)) table_lines

/-- The loop of `generate_docx` (lines 84-107) over the remaining lines,
carrying `table_buffer`: a table-row line appends its stripped form to
the buffer; any other line first flushes a non-empty buffer, then emits
its own block; end of input flushes a non-empty buffer. -/
def buildLoop : List Line → List Line → List Block
  | [], table_buffer =>
      if table_buffer.isEmpty then [] else create_table_from_markdown table_buffer
  | line :: rest, table_buffer =>
      match classify line with
      | .tableRowT stripped => buildLoop rest (table_buffer ++ [stripped])
      | other =>
          (if table_buffer.isEmpty then [] else create_table_from_markdown table_buffer)
            ++ blockOf other ++ buildLoop rest []

/-- `generate_docx` up to serialisation: split the input on newlines
(line 81) and run the loop with an empty buffer.  This is the spec's
`convert(text) -> Document`. -/
def convert (text : List Char) : List Block :=
  buildLoop (text.splitOn '\n') []

/-- `buildLoop` instrumented to also return, in order, every buffer it
hands to `create_table_from_markdown`; its first component coincides
with `buildLoop` (proved below). -/
def buildLoopT : List Line → List Line → List Block × List (List Line)
  | [], table_buffer =>
      if table_buffer.isEmpty then ([], [])
      else (create_table_from_markdown table_buffer, [table_buffer])
  | line :: rest, table_buffer =>
      match classify line with
      | .tableRowT stripped => buildLoopT rest (table_buffer ++ [stripped])
      | other =>
          let flushed :=
            if table_buffer.isEmpty then (([] : List Block), ([] : List (List Line)))
            else (create_table_from_markdown table_buffer, [table_buffer])
          let tail := buildLoopT rest []
          (flushed.1 ++ blockOf other ++ tail.1, flushed.2 ++ tail.2)

/-- Reference formulation following §4.3 of the spec word for word: the
output is produced run by run — each maximal run of consecutive
table-row lines is flushed as one buffer, every other line contributes
its own block.  Compared against `buildLoop` below. -/
def buildByRuns : List Line → List Block
  | [] => []
  | line :: rest =>
      if h : isTableLine line then
        create_table_from_markdown (((line :: rest).takeWhile isTableLine).map strip)
          ++ buildByRuns ((line :: rest).dropWhile isTableLine)
      else
        blockOf (classify line) ++ buildByRuns rest
termination_by lines => lines.length
decreasing_by
  · simp only [List.dropWhile_cons, h, if_true, List.length_cons]
    have hd : (List.dropWhile isTableLine rest).length ≤ rest.length := by
      induction rest with
      | nil => simp
      | cons a t ih =>
          rw [List.dropWhile_cons]
          split
          · simp only [List.length_cons]; omega
          · simp
    omega
  · simp

/-- The spec's wording for a Markdown header-separator: a run of three
or more consecutive `-` characters somewhere in the row. -/
def HasDashRun (s : Line) : Prop :=
  ∃ pre mid post : Line, s = pre ++ mid ++ post ∧ 3 ≤ mid.length ∧ ∀ c ∈ mid, c = '-'

lemma rstrip_cons_not_ws (c : Char) (s : Line) (h : pyWhitespace c = false) :
    rstrip (c :: s) = c :: rstrip s := by
  rw [rstrip]
  cases hr : rstrip s <;> simp [h]

lemma lstrip_cons_ws (c : Char) (s : Line) (h : pyWhitespace c = true) :
    lstrip (c :: s) = lstrip s := by
  simp [lstrip, List.dropWhile_cons, h]

lemma lstrip_cons_not_ws (c : Char) (s : Line) (h : pyWhitespace c = false) :
    lstrip (c :: s) = c :: s := by
  simp [lstrip, List.dropWhile_cons, h]

lemma strip_cons_ws (c : Char) (s : Line) (h : pyWhitespace c = true) :
    strip (c :: s) = strip s := by
  simp [strip, lstrip_cons_ws, h]

lemma strip_cons_not_ws (c : Char) (s : Line) (h : pyWhitespace c = false) :
    strip (c :: s) = c :: rstrip s := by
  simp [strip, lstrip_cons_not_ws c s h, rstrip_cons_not_ws c s h]

lemma startswith_cons (c : Char) (s : Line) (d : Char) (p : Line) :
    startswith (c :: s) (d :: p) = ((d == c) && startswith s p) := rfl

lemma startswith_nil (s : Line) : startswith s [] = true := by
  cases s <;> rfl

lemma beq_false_of_ws_mismatch (d c : Char) (hd : pyWhitespace d = false)
    (hc : pyWhitespace c = true) : (d == c) = false := by
  cases h : d == c
  · rfl
  · exact absurd (eq_of_beq h ▸ hd) (by simp [hc])

/-- **C1, failing input.** All three heading branches of the source pass
`line[2:]` to `add_heading` (lines 97-99), so only the level-1 marker is
removed in full: the heading levels are as claimed, but `## Title`
yields heading text ` Title` (leading space kept) and `### Title`
yields `# Title` (a marker character kept) — not `Title`. -/
theorem heading_text_keeps_marker_residue :
    classify "# Title".data = .headingT 1 "Title".data ∧
      classify "## Title".data = .headingT 2 " Title".data ∧
      classify "### Title".data = .headingT 3 "# Title".data := by
  refine ⟨?_, ?_, ?_⟩ <;> decide

/-- **C2, counterexample.** The single-character line `|` IS classified
as a table row (Python's `startswith`/`endswith` both hold on a
one-character string), and the conversion of `"|"` emits a table block,
not a paragraph and not nothing — against the claim's "length ≥ 2" rule. -/
theorem single_pipe_is_table_row_cex :
    classify "|".data = .tableRowT ['|'] ∧ convert "|".data = [Block.table [[]]] := by
  constructor <;> decide

/-- **C2, amended.** A line classifies as `TableRow` exactly when its
trimmed form starts with `|` and ends with `|` — with no lower bound on
its length, so the single-character `|` line is itself a `TableRow`. -/
theorem table_row_iff_pipe_bounded :
    (∀ line : Line, classify line = .tableRowT (strip line) ↔
      (startswith (strip line) ['|'] = true ∧ endswith (strip line) ['|'] = true)) ∧
      classify ['|'] = .tableRowT ['|'] := by
  constructor
  · intro line
    unfold classify isTableLine
    by_cases h : (startswith (strip line) ['|'] && endswith (strip line) ['|']) = true
    · rw [if_pos h]
      simp only [Bool.and_eq_true] at h
      simp [h]
    · rw [if_neg h]
      simp only [Bool.and_eq_true] at h
      split_ifs <;> simp_all
  · decide

/-- **C3, counterexample.** The line `  # Title`, whose trimmed form
starts with the heading marker, is NOT classified by the heading rule:
it becomes a paragraph carrying the raw line, marker included. -/
theorem indented_marker_is_paragraph_cex :
    classify "  # Title".data = .paragraphT "  # Title".data ∧
      startswith (strip "  # Title".data) ('#' :: [' ']) = true := by
  constructor <;> decide

/-- **C3, amended.** Only the table-row test is evaluated on the trimmed
line; the heading and bullet prefix tests are evaluated on the raw line.
A line starting with whitespace whose trimmed form starts with `#` is
therefore classified as a paragraph whose text is the raw line, marker
retained. -/
theorem raw_line_marker_tests (c : Char) (l : Line)
    (hc : pyWhitespace c = true)
    (hm : startswith (strip (c :: l)) ['#'] = true) :
    classify (c :: l) = .paragraphT (c :: l) := by
  have hst : strip (c :: l) = strip l := strip_cons_ws c l hc
  rw [hst] at hm
  cases hs : strip l with
  | nil => rw [hs] at hm; exact absurd hm (by decide)
  | cons d t =>
      rw [hs, startswith_cons] at hm
      have hd : d = '#' := by
        cases hq : ('#' == d)
        · rw [hq] at hm; simp at hm
        · exact (eq_of_beq hq).symm
      subst hd
      unfold classify isTableLine
      rw [hst, hs]
      simp [startswith_cons, startswith_nil,
        beq_false_of_ws_mismatch '#' c (by decide) hc,
        beq_false_of_ws_mismatch '*' c (by decide) hc,
        beq_false_of_ws_mismatch '-' c (by decide) hc]

/-- Witness for C3's amended statement at the concrete line ` # Title`
(a space, then the marker). -/
theorem raw_line_marker_tests_witness :
    pyWhitespace ' ' = true ∧
      startswith (strip (' ' :: "# Title".data)) ['#'] = true ∧
      classify (' ' :: "# Title".data) = .paragraphT (' ' :: "# Title".data) :=
  ⟨by decide, by decide,
    raw_line_marker_tests ' ' "# Title".data (by decide) (by decide)⟩

lemma startswith_nil_left (d : Char) (p : Line) :
    startswith [] (d :: p) = false := rfl

/-- **C4.** The three-line table input round-trips into exactly one
table block: the separator row is dropped, the header row is kept as an
ordinary data row, and the first remaining row fixes the column count
at 2. -/
theorem table_round_trip :
    convert "| A | B |\n|---|---|\n| 1 | 2 |".data =
      [Block.table [["A".data, "B".data], ["1".data, "2".data]]] := by
  decide

/-- **C7.** If the body of table reconstruction fails, no partial table
is emitted: every buffered row becomes its own paragraph block, in the
original order, and no error propagates (the fallback is itself total). -/
theorem reconstruction_fallback (body : List Line → Except Unit (List Block))
    (table_lines : List Line) (h : body table_lines = .error ()) :
    tableWithFallback body table_lines
      = table_lines.map (fun line => Block.paragraph line) := by
  simp [tableWithFallback, h]

/-- Witness for C7 with a body that always fails, on a two-row buffer. -/
theorem reconstruction_fallback_witness :
    tableWithFallback (fun _ => .error ()) ["| x |".data, "| y |".data]
      = [Block.paragraph "| x |".data, Block.paragraph "| y |".data] :=
  reconstruction_fallback (fun _ => .error ()) ["| x |".data, "| y |".data] rfl

/-- **C9.** The empty input converts to the empty document, and any line
whose trimmed content is empty is classified `Blank` and emits no
block. -/
theorem empty_input_empty_document :
    convert "".data = [] ∧
      (∀ line : Line, strip line = [] →
        classify line = .blankT ∧ blockOf (classify line) = []) := by
  constructor
  · decide
  · intro line h
    have hcl : classify line = .blankT := by
      cases line with
      | nil => decide
      | cons c l =>
          have hc : pyWhitespace c = true := by
            cases hw : pyWhitespace c
            · rw [strip_cons_not_ws c l hw] at h; simp at h
            · rfl
          unfold classify isTableLine
          rw [h]
          simp [startswith_cons, startswith_nil_left,
            beq_false_of_ws_mismatch '#' c (by decide) hc,
            beq_false_of_ws_mismatch '*' c (by decide) hc,
            beq_false_of_ws_mismatch '-' c (by decide) hc]
    exact ⟨hcl, by rw [hcl]; rfl⟩

lemma startswith_iff_append (p : Line) : ∀ s : Line,
    startswith s p = true ↔ ∃ t, s = p ++ t := by
  induction p with
  | nil =>
      intro s
      simp [startswith_nil]
  | cons d p ih =>
      intro s
      cases s with
      | nil => simp [startswith_nil_left]
      | cons c s' =>
          rw [startswith_cons, Bool.and_eq_true, beq_iff_eq, ih]
          constructor
          · rintro ⟨rfl, t, rfl⟩
            exact ⟨t, rfl⟩
          · rintro ⟨t, ht⟩
            injection ht with h1 h2
            exact ⟨h1.symm, t, h2⟩

lemma hasSep_iff (s : Line) : hasSep s = true ↔ HasDashRun s := by
  induction s with
  | nil =>
      constructor
      · intro h; exact absurd h (by decide)
      · rintro ⟨p, m, q, heq, hlen, -⟩
        have hm : m = [] := by
          have hl := congrArg List.length heq
          simp at hl
          omega
        subst hm
        simp at hlen
  | cons c rest ih =>
      rw [hasSep, Bool.or_eq_true, ih, startswith_iff_append]
      constructor
      · rintro (⟨t, ht⟩ | ⟨p, m, q, heq, hlen, hall⟩)
        · exact ⟨[], sepDashes, t, by simpa using ht, by decide, by decide⟩
        · exact ⟨c :: p, m, q, by simp [heq], hlen, hall⟩
      · rintro ⟨p, m, q, heq, hlen, hall⟩
        cases p with
        | cons p0 p' =>
            right
            injection heq with h1 h2
            exact ⟨p', m, q, h2, hlen, hall⟩
        | nil =>
            left
            rcases m with _ | ⟨a, _ | ⟨b, _ | ⟨d, m'⟩⟩⟩
            · simp at hlen
            · simp at hlen
            · simp at hlen
            · have ha : a = '-' := hall a (by simp)
              have hb : b = '-' := hall b (by simp)
              have hd : d = '-' := hall d (by simp)
              subst ha; subst hb; subst hd
              refine ⟨m' ++ q, ?_⟩
              simpa [sepDashes] using heq

/-- **C5.** A buffered row is discarded exactly when it contains a run
of three or more consecutive `-` characters anywhere (the `'---' in
row` substring test), and a buffer with no remaining rows produces no
block at all. -/
theorem separator_row_filter :
    (∀ row : Line, hasSep row = true ↔ HasDashRun row) ∧
      (∀ (table_lines : List Line), ∀ row ∈ table_lines,
        row ∈ filteredRows table_lines ↔ ¬ HasDashRun row) ∧
      (∀ table_lines : List Line,
        filteredRows table_lines = [] → create_table_blocks table_lines = []) := by
  refine ⟨hasSep_iff, ?_, ?_⟩
  · intro tl row hrow
    rw [filteredRows, List.mem_filter]
    simp [hrow, ← hasSep_iff]
  · intro tl h
    simp [create_table_blocks, h]

lemma padTruncate_length (n : Nat) (cells : List Line) :
    (padTruncate n cells).length = n := by
  simp [padTruncate]
  omega

lemma padTruncate_getD (n : Nat) (cells : List Line) (j : Nat) (hj : j < n) :
    (padTruncate n cells).getD j [] = cells.getD j [] := by
  by_cases hc : j < cells.length
  · rw [padTruncate, List.getD_append _ _ _ _ (by simp; omega)]
    rw [List.getD_eq_getElem _ _ (by simp; omega), List.getD_eq_getElem _ _ hc]
    simp [List.getElem_take]
  · push_neg at hc
    rw [List.getD_eq_default _ _ hc, padTruncate,
      List.getD_append_right _ _ _ _ (by simp; omega)]
    have hr : (List.replicate (n - cells.length) ([] : Line)).getD
        (j - (cells.take n).length) [] = [] := by
      by_cases hlt : j - (cells.take n).length < n - cells.length
      · rw [List.getD_eq_getElem _ _ (by simpa using hlt)]
        simp
      · rw [List.getD_eq_default _ _ (by simpa using Nat.le_of_not_lt hlt)]
    exact hr

/-- **C6.** The column count is fixed by the first remaining row alone;
every emitted table row has exactly that many cells, each cell `j`
holding the row's parsed cell `j` when it exists and the empty text
otherwise — cells beyond the column count are silently dropped, short
rows leave their remaining columns empty, and the construction is a
total function of the buffer (it never errors). -/
theorem column_truncation_padding (table_lines : List Line) (r0 : Line)
    (rest : List Line) (h : filteredRows table_lines = r0 :: rest) :
    ∃ tableRows : List (List Line),
      create_table_blocks table_lines = [Block.table tableRows] ∧
      tableRows.length = (filteredRows table_lines).length ∧
      ∀ i < tableRows.length,
        (tableRows.getD i []).length = (parseCells r0).length ∧
        ∀ j < (parseCells r0).length,
          (tableRows.getD i []).getD j [] =
            (parseCells ((filteredRows table_lines).getD i [])).getD j [] := by
  refine ⟨(r0 :: rest).map (fun row => padTruncate (parseCells r0).length (parseCells row)),
    ?_, ?_, ?_⟩
  · simp [create_table_blocks, h]
  · simp [h]
  · intro i hi
    rw [h]
    simp only [List.length_map] at hi
    have hmap : ((r0 :: rest).map
          (fun row => padTruncate (parseCells r0).length (parseCells row))).getD i []
        = padTruncate (parseCells r0).length (parseCells ((r0 :: rest).getD i [])) := by
      rw [List.getD_eq_getElem _ _ (by simpa using hi), List.getD_eq_getElem _ _ hi]
      simp only [List.getElem_map]
    rw [hmap]
    exact ⟨padTruncate_length _ _, fun j hj => padTruncate_getD _ _ j hj⟩

/-- Witness for C6: two columns fixed by `| A | B |`; the later row
`| 1 | 2 | 3 |` contributes only its first two cells. -/
theorem column_truncation_padding_witness :
    filteredRows ["| A | B |".data, "| 1 | 2 | 3 |".data]
        = "| A | B |".data :: ["| 1 | 2 | 3 |".data] ∧
      ∃ tableRows : List (List Line),
        create_table_blocks ["| A | B |".data, "| 1 | 2 | 3 |".data]
            = [Block.table tableRows] ∧
        tableRows.length
            = (filteredRows ["| A | B |".data, "| 1 | 2 | 3 |".data]).length ∧
        ∀ i < tableRows.length,
          (tableRows.getD i []).length = (parseCells "| A | B |".data).length ∧
          ∀ j < (parseCells "| A | B |".data).length,
            (tableRows.getD i []).getD j [] =
              (parseCells ((filteredRows ["| A | B |".data,
                "| 1 | 2 | 3 |".data]).getD i [])).getD j [] :=
  ⟨by decide,
    column_truncation_padding ["| A | B |".data, "| 1 | 2 | 3 |".data]
      "| A | B |".data ["| 1 | 2 | 3 |".data] (by decide)⟩

lemma classify_eq_tableRowT (line : Line) (h : isTableLine line = true) :
    classify line = .tableRowT (strip line) := by
  unfold classify
  rw [if_pos h]

lemma classify_tableRowT_inv (line s : Line) (hc : classify line = .tableRowT s) :
    isTableLine line = true ∧ s = strip line := by
  unfold classify at hc
  by_cases h : isTableLine line
  · rw [if_pos h] at hc
    injection hc with h2
    exact ⟨h, h2.symm⟩
  · rw [if_neg h] at hc
    exfalso
    split_ifs at hc

lemma create_table_nil : create_table_from_markdown [] = [] := rfl

lemma flushIf_eq (buffer : List Line) :
    (if buffer.isEmpty then [] else create_table_from_markdown buffer)
      = create_table_from_markdown buffer := by
  cases buffer
  · rfl
  · simp

lemma buildLoop_cons_table (line : Line) (rest buffer : List Line)
    (h : isTableLine line = true) :
    buildLoop (line :: rest) buffer = buildLoop rest (buffer ++ [strip line]) := by
  simp only [buildLoop]
  rw [classify_eq_tableRowT line h]

lemma buildLoop_cons_other (line : Line) (rest buffer : List Line)
    (h : isTableLine line = false) :
    buildLoop (line :: rest) buffer =
      (if buffer.isEmpty then [] else create_table_from_markdown buffer)
        ++ blockOf (classify line) ++ buildLoop rest [] := by
  simp only [buildLoop]
  cases hc : classify line with
  | tableRowT s => exact absurd (classify_tableRowT_inv line s hc).1 (by simp [h])
  | headingT level text => rfl
  | bulletT text => rfl
  | paragraphT text => rfl
  | blankT => rfl

lemma buildByRuns_nil : buildByRuns [] = [] := by
  rw [buildByRuns]

lemma buildByRuns_cons_table (line : Line) (rest : List Line)
    (h : isTableLine line = true) :
    buildByRuns (line :: rest)
      = create_table_from_markdown (((line :: rest).takeWhile isTableLine).map strip)
        ++ buildByRuns ((line :: rest).dropWhile isTableLine) := by
  rw [buildByRuns]
  rw [dif_pos h]

lemma buildByRuns_cons_other (line : Line) (rest : List Line)
    (h : isTableLine line = false) :
    buildByRuns (line :: rest) = blockOf (classify line) ++ buildByRuns rest := by
  rw [buildByRuns]
  rw [dif_neg (by simp [h])]

lemma buildByRuns_run (lines : List Line) :
    buildByRuns lines
      = create_table_from_markdown ((lines.takeWhile isTableLine).map strip)
        ++ buildByRuns (lines.dropWhile isTableLine) := by
  cases lines with
  | nil => simp [buildByRuns_nil, create_table_nil]
  | cons line rest =>
      cases h : isTableLine line with
      | true => exact buildByRuns_cons_table line rest h
      | false =>
          rw [buildByRuns_cons_other line rest h, List.takeWhile_cons, List.dropWhile_cons]
          simp [h, create_table_nil, buildByRuns_cons_other line rest h]

lemma buildLoop_eq_runs (lines : List Line) : ∀ buffer : List Line,
    buildLoop lines buffer
      = create_table_from_markdown (buffer ++ (lines.takeWhile isTableLine).map strip)
        ++ buildByRuns (lines.dropWhile isTableLine) := by
  induction lines with
  | nil =>
      intro buffer
      simp only [buildLoop, List.takeWhile_nil, List.dropWhile_nil, List.map_nil,
        List.append_nil, buildByRuns_nil]
      rw [flushIf_eq]
  | cons line rest ih =>
      intro buffer
      cases h : isTableLine line with
      | true =>
          rw [buildLoop_cons_table line rest buffer h, ih (buffer ++ [strip line]),
            List.takeWhile_cons, List.dropWhile_cons]
          simp [h]
      | false =>
          rw [buildLoop_cons_other line rest buffer h, ih [], List.takeWhile_cons,
            List.dropWhile_cons]
          simp only [h, if_false, Bool.false_eq_true, List.map_nil, List.append_nil,
            List.nil_append, List.map_cons]
          rw [flushIf_eq, buildByRuns_cons_other line rest h, ← buildByRuns_run rest]
          simp [List.append_assoc]

/-- **C8.** The builder is single-pass and order-preserving: it agrees
with the run-by-run reference `buildByRuns`, in which each maximal run
of consecutive table-row lines is flushed exactly once and every other
line contributes its blocks in input order.  Concretely, an interrupted
run yields two separate tables around the interrupting paragraph, and a
run ended by end of input is still flushed. -/
theorem single_pass_max_runs :
    (∀ lines : List Line, buildLoop lines [] = buildByRuns lines) ∧
      convert "| A | B |\ntext\n| 1 | 2 |".data
        = [Block.table [["A".data, "B".data]], Block.paragraph "text".data,
            Block.table [["1".data, "2".data]]] ∧
      convert "| A | B |".data = [Block.table [["A".data, "B".data]]] := by
  refine ⟨?_, by decide, by decide⟩
  intro lines
  rw [buildLoop_eq_runs lines [], List.nil_append]
  exact (buildByRuns_run lines).symm

lemma buildLoopT_cons_table (line : Line) (rest buffer : List Line)
    (h : isTableLine line = true) :
    buildLoopT (line :: rest) buffer = buildLoopT rest (buffer ++ [strip line]) := by
  simp only [buildLoopT]
  rw [classify_eq_tableRowT line h]

lemma buildLoopT_cons_other (line : Line) (rest buffer : List Line)
    (h : isTableLine line = false) :
    buildLoopT (line :: rest) buffer =
      ((if buffer.isEmpty then [] else create_table_from_markdown buffer)
          ++ blockOf (classify line) ++ (buildLoopT rest []).1,
        (if buffer.isEmpty then ([] : List (List Line)) else [buffer])
          ++ (buildLoopT rest []).2) := by
  simp only [buildLoopT]
  cases hc : classify line with
  | tableRowT s => exact absurd (classify_tableRowT_inv line s hc).1 (by simp [h])
  | headingT level text => by_cases he : buffer.isEmpty <;> simp [he]
  | bulletT text => by_cases he : buffer.isEmpty <;> simp [he]
  | paragraphT text => by_cases he : buffer.isEmpty <;> simp [he]
  | blankT => by_cases he : buffer.isEmpty <;> simp [he]

lemma buildLoopT_fst (lines : List Line) : ∀ buffer : List Line,
    (buildLoopT lines buffer).1 = buildLoop lines buffer := by
  induction lines with
  | nil =>
      intro buffer
      by_cases he : buffer.isEmpty <;> simp [buildLoopT, buildLoop, he]
  | cons line rest ih =>
      intro buffer
      cases h : isTableLine line with
      | true =>
          rw [buildLoopT_cons_table line rest buffer h,
            buildLoop_cons_table line rest buffer h]
          exact ih (buffer ++ [strip line])
      | false =>
          rw [buildLoopT_cons_other line rest buffer h,
            buildLoop_cons_other line rest buffer h]
          simp [ih []]

lemma buildLoopT_snd_mem (lines : List Line) : ∀ (buffer buf : List Line),
    buf ∈ (buildLoopT lines buffer).2 → ∀ b ∈ buf,
      b ∈ buffer ∨ ∃ l ∈ lines, isTableLine l = true ∧ b = strip l := by
  induction lines with
  | nil =>
      intro buffer buf hbuf b hb
      left
      by_cases he : buffer.isEmpty
      · simp [buildLoopT, he] at hbuf
      · simp [buildLoopT, he] at hbuf
        exact hbuf ▸ hb
  | cons line rest ih =>
      intro buffer buf hbuf b hb
      cases h : isTableLine line with
      | true =>
          rw [buildLoopT_cons_table line rest buffer h] at hbuf
          rcases ih (buffer ++ [strip line]) buf hbuf b hb with hmem | ⟨l, hl, ht, hbs⟩
          · rcases List.mem_append.1 hmem with h1 | h2
            · exact Or.inl h1
            · right
              refine ⟨line, by simp, h, ?_⟩
              simpa using h2
          · exact Or.inr ⟨l, by simp [hl], ht, hbs⟩
      | false =>
          rw [buildLoopT_cons_other line rest buffer h] at hbuf
          rcases List.mem_append.1 hbuf with h1 | h2
          · left
            by_cases he : buffer.isEmpty
            · simp [he] at h1
            · simp [he] at h1
              exact h1 ▸ hb
          · rcases ih [] buf h2 b hb with hmem | ⟨l, hl, ht, hbs⟩
            · simp at hmem
            · exact Or.inr ⟨l, by simp [hl], ht, hbs⟩

/-- **C10.** The instrumented loop agrees with the real one, and every
string in any buffer handed to table reconstruction (so also to its
exception fallback) is the stripped form of some input line and both
starts and ends with `|` — never a raw line with its original
surrounding whitespace. -/
theorem table_buffer_invariant :
    (∀ (lines buffer : List Line), (buildLoopT lines buffer).1 = buildLoop lines buffer) ∧
      ∀ (lines buf : List Line), buf ∈ (buildLoopT lines []).2 → ∀ b ∈ buf,
        (∃ l ∈ lines, b = strip l) ∧
          startswith b ['|'] = true ∧ endswith b ['|'] = true := by
  refine ⟨buildLoopT_fst, ?_⟩
  intro lines buf hbuf b hb
  rcases buildLoopT_snd_mem lines [] buf hbuf b hb with hmem | ⟨l, hl, ht, hbs⟩
  · simp at hmem
  · have hpipes : startswith (strip l) ['|'] = true ∧ endswith (strip l) ['|'] = true := by
      simpa [isTableLine, Bool.and_eq_true] using ht
    exact ⟨⟨l, hl, hbs⟩, hbs ▸ hpipes.1, hbs ▸ hpipes.2⟩

end PdfToWord
